import Mathlib

/- Verification of the Arduino-CommandParser repository.

   Shallow embedding: `std::string` values are modelled as `List Char`;
   C strings read through an index are modelled with a NUL sentinel past the
   end (C code only ever reads up to the terminating NUL).  Machine doubles
   are abstracted by a type `D` together with the arithmetic operations the
   source applies to them (`+ - * / fmod pow`) and the libc `strtod`
   tokenizer; machine integers are `Int` with the explicit `min/max` bounds
   the source passes to `strToInt`. -/

set_option maxRecDepth 8000

/-! ## Character helpers (C `<cctype>` in the "C" locale, ASCII) -/

def nulChar : Char := Char.ofNat 0

/-- `buf[i]` on a NUL-terminated C string. -/
def chAt (l : List Char) (i : Nat) : Char := l.getD i nulChar

/-- the whitespace set `" \n\r\t"` used by `find_last_not_of`/`find_first_not_of`
    in `CommandParser.h`. -/
def isWS4 (c : Char) : Bool := c == ' ' || c == '\n' || c == '\r' || c == '\t'

/-- C `isspace` in the "C" locale. -/
def isSpaceC (c : Char) : Bool :=
  c == ' ' || c == '\t' || c == '\n' || c == '\x0b' || c == '\x0c' || c == '\r'

/-- the 52-letter constant passed to `find_first_of` in `processCommand`
    (all 26 letters in both cases; the source lists them in a scrambled
    order, which does not affect `find_first_of`). -/
def isLetterC (c : Char) : Bool :=
  ('a' ≤ c && c ≤ 'z') || ('A' ≤ c && c ≤ 'Z')

/-! ## strToInt (CommandParser.h lines 95-143) -/

/-- digit decoding inside the `while` loop of `strToInt`:
    `isdigit` → `c - '0'`; else if `base == 16 && isalpha` →
    `tolower(c) - 'a' + 10`; else `-1`. -/
def digitValC (base : Int) (c : Char) : Int :=
  if c.isDigit then (c.toNat : Int) - 48
  else if base == 16 && c.isAlpha then (c.toLower.toNat : Int) - 97 + 10
  else -1

/-- the digit-accumulation loop of `strToInt`.  Returns `none` for the
    overflow `return 0` (the whole call aborts), and `some (result, k)` when
    the loop breaks after consuming `k` digit bytes.  C++ `/` on integers
    truncates toward zero, hence `Int.tdiv`. -/
def strToIntLoop (base maxv : Int) : List Char → Int → Option (Int × Nat)
  | [], r => some (r, 0)
  | c :: cs, r =>
    let d := digitValC base c
    if d < 0 ∨ base ≤ d then some (r, 0)
    else if (maxv - d).tdiv base < r then none
    else
      match strToIntLoop base maxv cs (r * base + d) with
      | none => none
      | some (r2, k) => some (r2, k + 1)

/-- `strToInt<T>(buf, value, min_value, max_value)`.
    Result `(position, some v)` models a `return position` after `*value = v`;
    `(0, none)` models the failure `return 0` paths where `*value` is never
    written.  (A legitimate `return position` with `position = 0` — no digits
    at all — is `(0, some 0)`; the callers treat any `0` as failure.) -/
def strToInt (buf : List Char) (minv maxv : Int) : Nat × Option Int :=
  let sgn : Bool × Nat :=
    if minv < 0 ∧ (chAt buf 0 = '+' ∨ chAt buf 0 = '-') then
      (chAt buf 0 == '-', 1) else (false, 0)
  let isNeg := sgn.1
  let p1 := sgn.2
  let bp : Int × Nat :=
    if chAt buf p1 = '0' then
      if chAt buf (p1 + 1) = 'b' then ((2 : Int), p1 + 2)
      else if chAt buf (p1 + 1) = 'o' then ((8 : Int), p1 + 2)
      else if chAt buf (p1 + 1) = 'x' then ((16 : Int), p1 + 2)
      else ((10 : Int), p1)
    else ((10 : Int), p1)
  let base := bp.1
  let p2 := bp.2
  match strToIntLoop base maxv (buf.drop p2) 0 with
  | none => (0, none)
  | some (r, k) =>
    let result := if isNeg then -r else r
    if result < minv ∨ maxv < result then (0, none)
    else (p2 + k, some result)

/-- `uint64_t` bounds passed at the `'u'` case of `processCommand`. -/
def u64max : Int := 2 ^ 64 - 1

/-- `int64_t` bounds passed at the `'i'` case of `processCommand`. -/
def i64min : Int := -(2 ^ 63)

def i64max : Int := 2 ^ 63 - 1

/-! ## Value of a digit string, and formatting (for the round-trip claim C9) -/

/-- the number denoted by a digit string read most-significant-first, starting
    from accumulator `r` — exactly the quantity accumulated by the loop of
    `strToInt`. -/
def listVal (b : Int) (ds : List Char) (r : Int) : Int :=
  ds.foldl (fun a c => a * b + digitValC b c) r

/-- Modelled from the spec: "formatting it as a `0x`, `0o`, or `0b` prefixed
    literal" — digit characters of the formatted literal ( `0`-`9`, then
    lowercase `a`-`f`), the same alphabet `strToInt` accepts. -/
def digitChar (d : Nat) : Char :=
  if d < 10 then Char.ofNat (48 + d) else Char.ofNat (97 + d - 10)

/-- Modelled from the spec: base-`b` digit string of `n`, most significant
    digit first (`fuel`-bounded recursion; `fuel > n` suffices). -/
def natDigitsAux (b : Nat) : Nat → Nat → List Char
  | 0, _ => []
  | fuel + 1, n =>
    if n < b then [digitChar n]
    else natDigitsAux b fuel (n / b) ++ [digitChar (n % b)]

/-- Modelled from the spec: the base-`b` rendering of `n` (e.g. the `ff` in
    `0xff`). -/
def natDigits (b n : Nat) : List Char := natDigitsAux b (n + 1) n

/-- the prefix letter of a formatted literal: `0b`, `0o`, `0x`. -/
def basePrefixChar (b : Nat) : Char :=
  if b = 2 then 'b' else if b = 8 then 'o' else 'x'

/-! ## String helpers shared by RoundArray and CommandParser -/

/-- `s.erase(s.find_last_not_of(" \n\r\t") + 1)`: remove the trailing run of
    whitespace (everything when the string is all whitespace, `npos` case). -/
def trimTrailingWS : List Char → List Char
  | [] => []
  | c :: cs =>
    let r := trimTrailingWS cs
    if r.isEmpty && isWS4 c then [] else c :: r

/-- `tolower` over the whole string (the loops at the top of `processCommand`
    and `tab_complete`). -/
def toLowerStr (l : List Char) : List Char := l.map Char.toLower

/-- `command.erase(0, command.find_first_of(letters))`: `npos` erases the
    whole string. -/
def eraseToFirstLetter (l : List Char) : List Char :=
  match l.findIdx? isLetterC with
  | none => []
  | some p => l.drop p

/-- lines 368-371 of `processCommand`: `pos = find_first_not_of(" \n\r\t")`;
    erase the front only when `pos != 0 && pos != npos`. -/
def wsAdjust (l : List Char) : List Char :=
  match l.findIdx? (fun c => !isWS4 c) with
  | some 0 => l
  | some p => l.drop p
  | none => l

/-- `command.erase(0, command.find_first_not_of(" \t"))` after the argument
    loop: `npos` erases the whole string. -/
def stripSpaceTab (l : List Char) : List Char :=
  match l.findIdx? (fun c => !(c == ' ' || c == '\t')) with
  | none => []
  | some p => l.drop p

/-! ## RoundArray (RoundArray.h) — the recall-history buffer -/

structure RoundArray where
  strs : List (List Char)
  index : Nat
  lookingIndex : Nat
  block_if_empty : Bool
  deriving DecidableEq

/-- `RoundArray(max_size, block_if_empty)`; the C++ member `max_size` always
    equals `strs.size()` (set once in the constructor), so the embedding
    reads it back as `strs.length`. -/
def mkRoundArray (max_size : Nat) (block : Bool) : RoundArray :=
  ⟨List.replicate max_size [], 0, 0, block⟩

def RoundArray.add (st : RoundArray) (str : List Char) : RoundArray :=
  let n := st.strs.length
  let cmd := trimTrailingWS str
  if st.strs.getD ((st.index + n - 1) % n) [] == cmd then st
  else { st with strs := st.strs.set st.index cmd,
                 index := (st.index + 1) % n,
                 lookingIndex := (st.index + 1) % n }

/-- `go_up` mutates `lookingIndex` and returns (a reference to) the slot
    text; modelled as text × new state. -/
def RoundArray.go_up (st : RoundArray) : List Char × RoundArray :=
  let n := st.strs.length
  let l1 := (st.lookingIndex + n - 1) % n
  let l2 := if st.strs.getD l1 [] == [] && st.block_if_empty
            then (l1 + n + 1) % n else l1
  (st.strs.getD l2 [], { st with lookingIndex := l2 })

def RoundArray.go_down (st : RoundArray) : List Char × RoundArray :=
  let n := st.strs.length
  let l1 := (st.lookingIndex + n + 1) % n
  let l2 := if st.strs.getD l1 [] == [] && st.block_if_empty
            then (l1 + n - 1) % n else l1
  (st.strs.getD l2 [], { st with lookingIndex := l2 })

/-! ## StateMachine (StateMachine.h) — the escape-sequence recognizer -/

structure SMState where
  started : Bool
  chars : List Char
  deriving DecidableEq

/-- `StateMachine::begin` -/
def smBegin (_sm : SMState) : SMState := ⟨true, []⟩

/-- `StateMachine::append`.  `bound c` models `functions[c - 65] != nullptr`
    (which entries of the 26-slot action table are set).  Returns the new
    state, the pass-through buffer the call returns, and the letter whose
    action was invoked, if any. -/
def smAppend (bound : Char → Bool) (sm : SMState) (c : Char) :
    SMState × List Char × Option Char :=
  if sm.chars.isEmpty && c == '[' then
    ({ sm with chars := sm.chars ++ [c] }, [], none)
  else
    let fired := sm.chars == ['['] && ('A' ≤ c && c ≤ 'Z')
    let inv := if fired && bound c then some c else none
    let buffered := if fired then ([] : List Char) else sm.chars
    (⟨false, []⟩, buffered, inv)

/-! ## MathOP / CommandParser (CommandParser.h) -/

inductive MathOP where
  | ADD | SUB | MUL | DIV | MOD | POW | SET | EMPTY | MathOPCount
  deriving DecidableEq

/-- `mathOP_names` (indexed by the enum; `EMPTY` maps to the empty string). -/
def mathOPNames : List (List Char) :=
  ["add".toList, "sub".toList, "mult".toList, "div".toList, "mod".toList,
   "pow".toList, "set".toList, []]

/-- `mathOPToString` (guards out-of-range values with "Unknown"). -/
def mathOPToString : MathOP → List Char
  | .ADD => "add".toList
  | .SUB => "sub".toList
  | .MUL => "mult".toList
  | .DIV => "div".toList
  | .MOD => "mod".toList
  | .POW => "pow".toList
  | .SET => "set".toList
  | .EMPTY => []
  | .MathOPCount => "Unknown".toList

/-- `stringToMathOP`: first index whose name matches, else `MathOPCount`
    (the loop unrolled; the eight names are pairwise distinct). -/
def stringToMathOP (str : List Char) : MathOP :=
  if str == "add".toList then .ADD
  else if str == "sub".toList then .SUB
  else if str == "mult".toList then .MUL
  else if str == "div".toList then .DIV
  else if str == "mod".toList then .MOD
  else if str == "pow".toList then .POW
  else if str == "set".toList then .SET
  else if str == ([] : List Char) then .EMPTY
  else .MathOPCount

/-- the machine-double operations the source applies, kept abstract over a
    carrier `D`: C++ `+ - * /` on `double`, `fmod`, `pow`, and libc
    `strtod`.  `strtod s = some (v, k)` models a conversion that reads `k`
    bytes (`end - start = k`, `k ≥ 1`); `none` models `end == start`. -/
structure DoubleOps (D : Type) where
  add : D → D → D
  sub : D → D → D
  mul : D → D → D
  div : D → D → D
  fmod : D → D → D
  pow : D → D → D
  strtod : List Char → Option (D × Nat)
  strtod_nil : strtod [] = none
  strtod_consumes : ∀ s v k, strtod s = some (v, k) → 1 ≤ k ∧ k ≤ s.length

/-- `CommandParser::Argument`: the four-variant payload with its `present`
    flag folded into one sum (`absent` = default-constructed, not present). -/
inductive Argument (D : Type) where
  | absent
  | d (v : D)
  | u (v : Int)
  | i (v : Int)
  | s (v : List Char)
  deriving DecidableEq

def Argument.present {D : Type} : Argument D → Bool
  | .absent => false
  | _ => true

/-- `asDoubleOr`: default when not present, otherwise `std::get<double>` —
    which throws (`none`) when the variant holds another alternative. -/
def Argument.asDoubleOr {D : Type} : Argument D → D → Option D
  | .absent, dflt => some dflt
  | .d v, _ => some v
  | _, _ => none

def Argument.asUInt64Or {D : Type} : Argument D → Int → Option Int
  | .absent, dflt => some dflt
  | .u v, _ => some v
  | _, _ => none

def Argument.asInt64Or {D : Type} : Argument D → Int → Option Int
  | .absent, dflt => some dflt
  | .i v, _ => some v
  | _, _ => none

def Argument.asStringOr {D : Type} : Argument D → List Char → Option (List Char)
  | .absent, dflt => some dflt
  | .s v, _ => some v
  | _, _ => none

/-- `CommandParser::Command` (the callback itself is opaque; dispatch is
    recorded in the result, see `PCResult`). -/
structure Command where
  name : List Char
  argTypes : List Char
  description : List Char
  deriving DecidableEq

/-- `CommandParser::MathCommand`: `val` is the numeric cell reached through
    the `DoubleRef` capability (the `DoubleRefImpl<double>` instance, whose
    get/set round-trip is the identity). -/
structure MathCmd (D : Type) where
  name : List Char
  val : D
  description : List Char
  deriving DecidableEq

structure ParserState (D : Type) where
  commands : List Command
  mathCmds : List (MathCmd D)
  deriving DecidableEq

/-- outcome of `processCommand`: the returned flag, the response when it is
    one of the parser-generated error strings, and — since command callbacks
    are opaque — which callback was invoked and with what data. -/
inductive PCResult (D : Type) where
  | failure (msg : List Char)
  | cmdSuccess (args : List (Argument D))
  | mathSuccess (value : D) (op : MathOP)
  deriving DecidableEq

def errUnknownCommand : List Char := "Error: Unknown command.".toList

def errInvalidMathAddValue : List Char :=
  "Error: Invalid math command please add value.".toList

def errInvalidDouble : List Char := "Error: Invalid double argument.".toList

def errInvalidUnsigned : List Char :=
  "Error: Invalid unsigned integer argument.".toList

def errInvalidInteger : List Char := "Error: Invalid integer argument.".toList

def errInvalidString : List Char := "Error: Invalid string argument.".toList

def errTooManyArgs : List Char := "Error: Too many arguments provided.".toList

def errUnknownOperator (verb : List Char) : List Char :=
  "Unknown operator ! ".toList ++ verb

/-- the `switch (mathOp)` of `processCommand`: the seven get-modify-set
    cases; `none` is the `default:` unknown-operator path. -/
def applyMathOp {D : Type} (ops : DoubleOps D) (op : MathOP) (v x : D) :
    Option D :=
  match op with
  | .ADD => some (ops.add v x)
  | .SUB => some (ops.sub v x)
  | .MUL => some (ops.mul v x)
  | .DIV => some (ops.div v x)
  | .MOD => some (ops.fmod v x)
  | .POW => some (ops.pow v x)
  | .SET => some x
  | _ => none

/-- `find_if` over `commandDefinitions`. -/
def cmdFind (l : List Command) (name : List Char) : Option Command :=
  l.find? (fun c => c.name == name)

/-- `find_if` over `mathCommandDefinition`. -/
def mathFind {D : Type} (l : List (MathCmd D)) (name : List Char) :
    Option (MathCmd D) :=
  l.find? (fun c => c.name == name)

/-- write through the iterator found by `mathFind`: update the first entry
    with the given name. -/
def mathSet {D : Type} : List (MathCmd D) → List Char → D → List (MathCmd D)
  | [], _, _ => []
  | c :: cs, name, newv =>
    if c.name == name then { c with val := newv } :: cs
    else c :: mathSet cs name newv

/-- the loop body of `CommandParser::parseString`, scanning `buf` from the
    current read position: returns bytes consumed and the output pushed. -/
def parseStringAux (isQuoted : Bool) : List Char → Nat × List Char
  | [] => (0, [])
  | c :: cs =>
    if isQuoted && c == '"' then (1, [])
    else if !isQuoted && isSpaceC c then (1, [])
    else
      let r := parseStringAux isQuoted cs
      (r.1 + 1, c :: r.2)

/-- `CommandParser::parseString`. -/
def parseString (buf : List Char) : Nat × List Char :=
  if chAt buf 0 = '"' then
    let r := parseStringAux true (buf.drop 1)
    (r.1 + 1, r.2)
  else parseStringAux false buf

/-- `if (command.size() > 0) command.erase(0, 1)` after an integer token. -/
def dropSep (l : List Char) : List Char := if l.isEmpty then l else l.drop 1

/-- the `for (char argType : argTypes)` loop of `processCommand`
    (lines 457-543): state is (remaining tail, pushed arguments, `optional`,
    `done`); `Except.error` is an early `return false`. -/
def parseLoop {D : Type} (ops : DoubleOps D) :
    List Char → List Char → List (Argument D) → Bool → Bool →
      Except (List Char) (List (Argument D) × List Char × Bool × Bool)
  | [], command, acc, optional, done => .ok (acc, command, optional, done)
  | t :: ts, command, acc, optional, done =>
    if done then
      parseLoop ops ts command (if t == 'o' then acc else acc ++ [.absent])
        optional done
    else if t == 'd' then
      match ops.strtod command with
      | none =>
        if optional then parseLoop ops ts command (acc ++ [.absent]) optional true
        else .error errInvalidDouble
      | some (v, k) =>
        parseLoop ops ts (command.drop k) (acc ++ [.d v]) optional done
    else if t == 'u' then
      let r := strToInt command 0 u64max
      if r.1 == 0 then
        if optional then parseLoop ops ts command (acc ++ [.absent]) optional true
        else .error errInvalidUnsigned
      else
        parseLoop ops ts (dropSep (command.drop r.1))
          (acc ++ [.u (r.2.getD 0)]) optional done
    else if t == 'i' then
      let r := strToInt command i64min i64max
      if r.1 == 0 then
        if optional then parseLoop ops ts command (acc ++ [.absent]) optional true
        else .error errInvalidInteger
      else
        parseLoop ops ts (dropSep (command.drop r.1))
          (acc ++ [.i (r.2.getD 0)]) optional done
    else if t == 's' then
      let r := parseString command
      if r.1 == 0 then
        if optional then parseLoop ops ts command (acc ++ [.absent]) optional true
        else .error errInvalidString
      else
        parseLoop ops ts (command.drop r.1) (acc ++ [.s r.2]) optional done
    else if t == 'o' then
      parseLoop ops ts command acc true done
    else
      parseLoop ops ts command (acc ++ [.absent]) optional done

/-- lines 355-371 of `processCommand`: lowercase, trim trailing whitespace,
    erase up to the first letter, split off the name at the first space,
    then the guarded leading-whitespace adjustment of the tail. -/
def preprocess (line : List Char) : List Char × List Char :=
  let command := eraseToFirstLetter (trimTrailingWS (toLowerStr line))
  match command.findIdx? (· == ' ') with
  | none => (command, [])
  | some p => (command.take p, wsAdjust (command.drop (p + 1)))

/-- `CommandParser::processCommand` (lines 354-552). -/
def processCommand {D : Type} (ops : DoubleOps D) (st : ParserState D)
    (commandStr : List Char) : PCResult D × ParserState D :=
  let pr := preprocess commandStr
  let name := pr.1
  let command := pr.2
  match cmdFind st.commands name with
  | some cmd =>
    match parseLoop ops cmd.argTypes command [] false false with
    | .error msg => (.failure msg, st)
    | .ok (args, rest, _, _) =>
      if (stripSpaceTab rest).isEmpty then (.cmdSuccess args, st)
      else (.failure errTooManyArgs, st)
  | none =>
    match mathFind st.mathCmds name with
    | none => (.failure errUnknownCommand, st)
    | some mc =>
      let command := trimTrailingWS command
      if command.isEmpty then (.mathSuccess mc.val .EMPTY, st)
      else
        match command.findIdx? (· == ' ') with
        | none => (.failure errInvalidMathAddValue, st)
        | some ecp =>
          let mathCommand := command.take ecp
          let rest := command.drop (ecp + 1)
          match ops.strtod rest with
          | none => (.failure errInvalidDouble, st)
          | some (x, _) =>
            let op := stringToMathOP mathCommand
            match applyMathOp ops op mc.val x with
            | none => (.failure (errUnknownOperator mathCommand), st)
            | some w =>
              (.mathSuccess w op,
                { st with mathCmds := mathSet st.mathCmds name w })

/-- `tab_complete`: the description string built for a verb completion. -/
def tabDescFor (name verb : List Char) : List Char :=
  "Using the command ".toList ++ name ++ [' '] ++ verb ++
    " to modify the value of ".toList ++ name

/-- `CommandParser::tab_complete` (lines 306-352): returns
    (descriptions, argsStrings). -/
def tabComplete {D : Type} (st : ParserState D) (cmd0 : List Char) :
    List (List Char) × List (List Char) :=
  let cmd := toLowerStr cmd0
  let fromCmds := st.commands.filter (fun c => cmd.isPrefixOf c.name)
  let fromMath := st.mathCmds.filter (fun c => cmd.isPrefixOf c.name)
  let description := fromCmds.map (·.description) ++ fromMath.map (·.description)
  let argsStrings := fromCmds.map (·.name)
    ++ fromMath.map (fun c => c.name ++ [' '])
  if description.isEmpty then
    match cmd.findIdx? isLetterC with
    | none => (description, argsStrings)
    | some ofs =>
      let command := cmd.drop ofs
      match command.findIdx? (· == ' ') with
      | none => (description, argsStrings)
      | some e =>
        let name := command.take e
        let command := command.drop e
        let command :=
          match command.findIdx? (fun c => !isWS4 c) with
          | none => ([] : List Char)
          | some p => command.drop p
        match mathFind st.mathCmds name with
        | none => (description, argsStrings)
        | some mc =>
          let verbs := mathOPNames.filter
            (fun v => !(v == ([] : List Char)) && command.isPrefixOf v)
          (verbs.map (fun v => tabDescFor mc.name v),
            verbs.map (fun v => mc.name ++ ' ' :: v))
  else (description, argsStrings)

/-- `longestCommonPrefix` inner comparison: common prefix of two strings. -/
def lcp2 (a b : List Char) : List Char :=
  match a, b with
  | x :: xs, y :: ys => if x == y then x :: lcp2 xs ys else []
  | _, _ => []

/-- `longestCommonPrefix` (CommandParser.h lines 575-593). -/
def longestCommonPrefix : List (List Char) → List Char
  | [] => []
  | s :: ss => ss.foldl lcp2 s

/-! ## CommandLineHandler (CommandParser.h lines 597-739) -/

/-- `TerminalIdentifier`; `type` holds 0 (unknown), 1 (`LINE_FEED`),
    2 (`CARRIAGE_RETURN`) or 3 (`BOTH`). -/
structure TerminalIdentifier where
  type : Nat
  identified : Bool
  identifying : Bool
  deriving DecidableEq

/-- the state a `CommandLineHandler` owns (the streams are I/O only). -/
structure EditorState (D : Type) where
  cmd : List Char
  cursor : Nat
  id : TerminalIdentifier
  sm : SMState
  array : RoundArray
  ps : ParserState D
  deriving DecidableEq

/-- which of the 26 recognizer actions the `CommandLineHandler` constructor
    binds: `UP = 'A'`, `DOWN = 'B'`, `RIGHT = 'C'`, `LEFT = 'D'`. -/
def handlerBound (c : Char) : Bool :=
  c == 'A' || c == 'B' || c == 'C' || c == 'D'

/-- `CommandLineHandler::setCommand` (screen output not modelled). -/
def setCommand {D : Type} (st : EditorState D) (a : List Char) :
    EditorState D :=
  if a ≠ [] then { st with cmd := a, cursor := a.length } else st

/-- the closures bound in the constructor, applied when `StateMachine::append`
    fires the corresponding action. -/
def applyAction {D : Type} (st : EditorState D) (inv : Option Char) :
    EditorState D :=
  match inv with
  | some c =>
    if c == 'A' then
      let r := st.array.go_up
      setCommand { st with array := r.2 } r.1
    else if c == 'B' then
      let r := st.array.go_down
      setCommand { st with array := r.2 } r.1
    else if c == 'D' then
      if st.cursor > 0 then { st with cursor := st.cursor - 1 } else st
    else if c == 'C' then
      if st.cursor < st.cmd.length then { st with cursor := st.cursor + 1 }
      else st
    else st
  | none => st

/-- the backspace branch (`c == 8`). -/
def bsStep {D : Type} (st : EditorState D) : EditorState D :=
  if !st.cmd.isEmpty && st.cursor > 0 then
    { st with cmd := st.cmd.eraseIdx (st.cursor - 1), cursor := st.cursor - 1 }
  else st

/-- the tab-completion branch (`c == 9`). -/
def tabStep {D : Type} (st : EditorState D) : EditorState D :=
  let commandNames := (tabComplete st.ps st.cmd).2
  if commandNames.isEmpty then st
  else if commandNames.length == 1 then
    { st with cmd := commandNames.headD [],
              cursor := (commandNames.headD []).length }
  else
    let p := longestCommonPrefix commandNames
    { st with cmd := p, cursor := p.length }

/-- insertion of an ordinary byte at the cursor (lines 703-714). -/
def insertChar {D : Type} (st : EditorState D) (c : Char) : EditorState D :=
  if st.cursor == st.cmd.length then
    { st with cmd := st.cmd ++ [c], cursor := st.cursor + 1 }
  else
    { st with cmd := st.cmd.take st.cursor ++ c :: st.cmd.drop st.cursor,
              cursor := st.cursor + 1 }

/-- the line-submission check at the bottom of the loop (lines 718-735). -/
def submitStep {D : Type} (ops : DoubleOps D) (st : EditorState D) (c : Char) :
    EditorState D :=
  if (c == '\r' && !st.id.identified) || (c == '\r' && st.id.type == 2)
      || (c == '\n' && (st.id.type == 1 || st.id.type == 3)) then
    let st := if !st.id.identified then
        { st with id := { st.id with identifying := true } } else st
    let pc := processCommand ops st.ps st.cmd
    { st with ps := pc.2, array := st.array.add st.cmd, cmd := [], cursor := 0 }
  else st

/-- the `c == 8` / `c == 9` / `else` chain plus the submission check; the
    identified-CRLF arm is the `continue` that skips both insertion and the
    submission check. -/
def editSubmit {D : Type} (ops : DoubleOps D) (st : EditorState D) (c : Char) :
    EditorState D :=
  if c == '\x08' then submitStep ops (bsStep st) c
  else if c == '\x09' then submitStep ops (tabStep st) c
  else if st.id.identifying && c == '\n' then
    { st with id := { type := 3, identified := true, identifying := false } }
  else
    let st := if st.id.identifying then
        { st with id := { type := 2, identified := true, identifying := false } }
      else st
    let st := if !st.id.identified && c == '\n' then
        { st with id := { type := 1, identified := true, identifying := false } }
      else st
    submitStep ops (insertChar st c) c

/-- one iteration of the `while (stream.available())` loop of
    `handle_commandline` for the byte `c` (all `stream` writes are output
    only and are not part of the state). -/
def handleByte {D : Type} (ops : DoubleOps D) (st : EditorState D) (c : Char) :
    EditorState D :=
  if c == '\x1b' then { st with sm := smBegin st.sm }
  else if st.sm.started then
    let r := smAppend handlerBound st.sm c
    let st2 := applyAction { st with sm := r.1 } r.2.2
    if r.2.1.isEmpty then st2
    else editSubmit ops st2 c
  else editSubmit ops st c

/-- processing a whole byte sequence. -/
def runBytes {D : Type} (ops : DoubleOps D) (st : EditorState D)
    (bs : List Char) : EditorState D :=
  bs.foldl (handleByte ops) st

/-! ## A concrete `DoubleOps` instance used by the witnesses: carrier `Int`,
    `strtod` reading a leading run of decimal digits. -/

def digitRunAux : List Char → Int → Nat × Int
  | [], acc => (0, acc)
  | c :: cs, acc =>
    if c.isDigit then
      let r := digitRunAux cs (acc * 10 + ((c.toNat : Int) - 48))
      (r.1 + 1, r.2)
    else (0, acc)

def intStrtod (l : List Char) : Option (Int × Nat) :=
  let r := digitRunAux l 0
  if r.1 == 0 then none else some (r.2, r.1)

def intOps : DoubleOps Int where
  add := (· + ·)
  sub := (· - ·)
  mul := (· * ·)
  div := fun a _ => a
  fmod := fun a b => a - b
  pow := fun a b => a + b
  strtod := intStrtod
  strtod_nil := rfl
  strtod_consumes := by
    have aux : ∀ (l : List Char) (acc : Int), (digitRunAux l acc).1 ≤ l.length := by
      intro l
      induction l with
      | nil => intro acc; simp [digitRunAux]
      | cons c cs ih =>
        intro acc
        rw [digitRunAux]
        by_cases hc : c.isDigit
        · simp only [if_pos hc, List.length_cons]
          exact Nat.succ_le_succ (ih _)
        · simp [if_neg hc]
    intro s v k h
    rw [intStrtod] at h
    by_cases h0 : (digitRunAux s 0).1 == 0
    · rw [if_pos h0] at h; cases h
    · rw [if_neg h0] at h
      cases h
      exact ⟨by simpa using Nat.pos_of_ne_zero (by simpa using h0), aux s 0⟩

@[simp] theorem listVal_nil (b r : Int) : listVal b [] r = r := rfl

theorem listVal_cons (b r : Int) (c : Char) (cs : List Char) :
    listVal b (c :: cs) r = listVal b cs (r * b + digitValC b c) := rfl

theorem listVal_append (b r : Int) (l1 l2 : List Char) :
    listVal b (l1 ++ l2) r = listVal b l2 (listVal b l1 r) := by
  simp [listVal, List.foldl_append]

/-- the accumulated value never decreases while digits are consumed. -/
theorem le_listVal (b : Int) (hb : 1 ≤ b) (ds : List Char) :
    ∀ r : Int, 0 ≤ r → (∀ c ∈ ds, 0 ≤ digitValC b c) → r ≤ listVal b ds r := by
  induction ds with
  | nil => intro r _ _; simp
  | cons c cs ih =>
    intro r hr hmem
    rw [listVal_cons]
    have hd : 0 ≤ digitValC b c := hmem c (by simp)
    have h1 : r ≤ r * b + digitValC b c := by nlinarith
    refine h1.trans (ih _ (by nlinarith) ?_)
    intro x hx; exact hmem x (by simp [hx])

/-- when every digit is valid for the base and the denoted value stays within
    `maxv`, the digit loop of `strToInt` consumes the whole string and
    returns the denoted value. -/
theorem strToIntLoop_complete (b maxv : Int) (hb : 0 < b) (ds : List Char) :
    ∀ r : Int, 0 ≤ r →
      (∀ c ∈ ds, 0 ≤ digitValC b c ∧ digitValC b c < b) →
      listVal b ds r ≤ maxv →
      strToIntLoop b maxv ds r = some (listVal b ds r, ds.length) := by
  induction ds with
  | nil => intro r _ _ _; simp [strToIntLoop]
  | cons c cs ih =>
    intro r hr hmem hval
    have hd := hmem c (by simp)
    have hmem2 : ∀ x ∈ cs, 0 ≤ digitValC b x ∧ digitValC b x < b := by
      intro x hx; exact hmem x (by simp [hx])
    have hr2 : (0 : Int) ≤ r * b + digitValC b c := by nlinarith
    have hval2 : listVal b cs (r * b + digitValC b c) ≤ maxv := by
      rw [listVal_cons] at hval; exact hval
    have hstep : r * b + digitValC b c ≤ maxv := by
      refine le_trans ?_ hval2
      exact le_listVal b (by omega) cs _ hr2 (fun x hx => (hmem2 x hx).1)
    have hprod : (0 : Int) ≤ r * b := mul_nonneg hr (le_of_lt hb)
    have hguard : ¬ ((maxv - digitValC b c).tdiv b < r) := by
      rw [Int.tdiv_eq_ediv (by linarith) (by omega), not_lt,
        Int.le_ediv_iff_mul_le hb]
      linarith
    rw [strToIntLoop]
    simp only [if_neg (by omega : ¬ (digitValC b c < 0 ∨ b ≤ digitValC b c)),
      if_neg hguard, ih _ hr2 hmem2 hval2, listVal_cons, List.length_cons]

/-- when every digit is valid and the denoted value exceeds `maxv`, the digit
    loop of `strToInt` aborts (the `return 0` overflow path). -/
theorem strToIntLoop_overflow (b maxv : Int) (hb : 0 < b) (hbm : b ≤ maxv)
    (ds : List Char) :
    ∀ r : Int, 0 ≤ r → r ≤ maxv →
      (∀ c ∈ ds, 0 ≤ digitValC b c ∧ digitValC b c < b) →
      maxv < listVal b ds r →
      strToIntLoop b maxv ds r = none := by
  induction ds with
  | nil => intro r _ hrm _ hval; simp at hval; omega
  | cons c cs ih =>
    intro r hr hrm hmem hval
    have hd := hmem c (by simp)
    have hmem2 : ∀ x ∈ cs, 0 ≤ digitValC b x ∧ digitValC b x < b := by
      intro x hx; exact hmem x (by simp [hx])
    rw [strToIntLoop]
    simp only [if_neg (by omega : ¬ (digitValC b c < 0 ∨ b ≤ digitValC b c))]
    by_cases hguard : (maxv - digitValC b c).tdiv b < r
    · simp [hguard]
    · have hle : r ≤ (maxv - digitValC b c).tdiv b := by omega
      rw [Int.tdiv_eq_ediv (by omega) (by omega),
        Int.le_ediv_iff_mul_le hb] at hle
      have hr2 : (0 : Int) ≤ r * b + digitValC b c := by nlinarith
      have hval2 : maxv < listVal b cs (r * b + digitValC b c) := by
        rw [listVal_cons] at hval; exact hval
      simp [hguard, ih _ hr2 (by omega) hmem2 hval2]

theorem digitValC_digitChar (b : Nat) (hb : b = 2 ∨ b = 8 ∨ b = 16)
    (d : Nat) (hd : d < b) : digitValC (b : Int) (digitChar d) = d := by
  rcases hb with h | h | h <;> subst h <;> interval_cases d <;> decide

theorem natDigitsAux_mem (b : Nat) (hb : 2 ≤ b) :
    ∀ fuel n, n < fuel →
      ∀ c ∈ natDigitsAux b fuel n, ∃ d, d < b ∧ c = digitChar d := by
  intro fuel
  induction fuel with
  | zero => intro n h; omega
  | succ fuel ih =>
    intro n h c hc
    rw [natDigitsAux] at hc
    by_cases hn : n < b
    · rw [if_pos hn] at hc; simp at hc; exact ⟨n, hn, hc⟩
    · rw [if_neg hn] at hc
      rcases List.mem_append.1 hc with h1 | h2
      · exact ih (n / b) (by
          have : n / b < n := Nat.div_lt_self (by omega) (by omega)
          omega) c h1
      · simp at h2
        exact ⟨n % b, Nat.mod_lt _ (by omega), h2⟩

theorem natDigitsAux_val (b : Nat) (hb : b = 2 ∨ b = 8 ∨ b = 16) :
    ∀ fuel n, n < fuel → ∀ r : Int,
      listVal (b : Int) (natDigitsAux b fuel n) r
        = r * (b : Int) ^ (natDigitsAux b fuel n).length + n := by
  have hb2 : 2 ≤ b := by rcases hb with h | h | h <;> omega
  intro fuel
  induction fuel with
  | zero => intro n h; omega
  | succ fuel ih =>
    intro n h r
    rw [natDigitsAux]
    by_cases hn : n < b
    · rw [if_pos hn]
      simp [listVal_cons, digitValC_digitChar b hb n hn]
    · rw [if_neg hn]
      have hdiv : n / b < fuel := by
        have : n / b < n := Nat.div_lt_self (by omega) (by omega)
        omega
      rw [listVal_append, ih (n / b) hdiv r, listVal_cons, listVal_nil,
        digitValC_digitChar b hb (n % b) (Nat.mod_lt _ (by omega))]
      rw [List.length_append, List.length_singleton, pow_succ]
      have hmod : ((n / b : Nat) : Int) * (b : Int) + ((n % b : Nat) : Int)
          = (n : Int) := by
        exact_mod_cast congrArg (Nat.cast (R := Int)) (Nat.div_add_mod' n b)
      linear_combination hmod

theorem natDigits_mem (b : Nat) (hb : 2 ≤ b) (n : Nat) :
    ∀ c ∈ natDigits b n, ∃ d, d < b ∧ c = digitChar d :=
  natDigitsAux_mem b hb (n + 1) n (Nat.lt_succ_self n)

theorem natDigits_val (b : Nat) (hb : b = 2 ∨ b = 8 ∨ b = 16) (n : Nat) :
    listVal (b : Int) (natDigits b n) 0 = n := by
  rw [natDigits, natDigitsAux_val b hb (n + 1) n (Nat.lt_succ_self n) 0]
  ring

theorem natDigits_valid (b : Nat) (hb : b = 2 ∨ b = 8 ∨ b = 16) (n : Nat) :
    ∀ c ∈ natDigits b n,
      0 ≤ digitValC (b : Int) c ∧ digitValC (b : Int) c < (b : Int) := by
  intro c hc
  obtain ⟨d, hd, rfl⟩ :=
    natDigits_mem b (by rcases hb with h | h | h <;> omega) n c hc
  rw [digitValC_digitChar b hb d hd]
  exact ⟨Int.ofNat_nonneg d, by exact_mod_cast hd⟩

theorem strToIntLoop_natDigits (b : Nat) (hb : b = 2 ∨ b = 8 ∨ b = 16)
    (maxv : Int) (n : Nat) (hn : (n : Int) ≤ maxv) :
    strToIntLoop (b : Int) maxv (natDigits b n) 0
      = some ((n : Int), (natDigits b n).length) := by
  have h0 : (0 : Int) < (b : Int) := by rcases hb with h | h | h <;> simp [h]
  have h := strToIntLoop_complete (b : Int) maxv h0 (natDigits b n) 0 le_rfl
    (natDigits_valid b hb n) (by rw [natDigits_val b hb n]; exact hn)
  rwa [natDigits_val b hb n] at h

/-- the loop breaks immediately (consuming nothing, result 0) when the first
    byte is not a valid digit of the base. -/
theorem strToIntLoop_break (base maxv : Int) (rest : List Char)
    (hd : digitValC base (chAt rest 0) < 0 ∨ base ≤ digitValC base (chAt rest 0)) :
    strToIntLoop base maxv rest 0 = some (0, 0) := by
  cases rest with
  | nil => rfl
  | cons c cs =>
    rw [strToIntLoop]
    simp only [chAt, List.getD_cons_zero] at hd
    simp [if_pos hd]

theorem digit_not_special (c : Char) (hc : c.isDigit = true) :
    c ≠ '+' ∧ c ≠ '-' ∧ c ≠ 'b' ∧ c ≠ 'o' ∧ c ≠ 'x' := by
  refine ⟨?_, ?_, ?_, ?_, ?_⟩ <;> (rintro rfl; exact absurd hc (by decide))

theorem digitValC_of_isDigit (c : Char) (h : c.isDigit = true) :
    0 ≤ digitValC 10 c ∧ digitValC 10 c < 10 := by
  have h2 : 48 ≤ c.toNat ∧ c.toNat ≤ 57 := by
    simpa [Char.isDigit, Char.le_def] using h
  rw [digitValC, if_pos h]
  omega

/-- full `strToInt` on an all-decimal-digit string whose value exceeds
    `max_value`: the overflow `return 0` fires. -/
theorem strToInt_overflow_digits (minv maxv : Int)
    (hmax : 10 ≤ maxv) (ds : List Char) (hd : ∀ c ∈ ds, c.isDigit)
    (hval : maxv < listVal 10 ds 0) :
    strToInt ds minv maxv = (0, none) := by
  have hvalid : ∀ c ∈ ds, 0 ≤ digitValC 10 c ∧ digitValC 10 c < 10 :=
    fun c hc => digitValC_of_isDigit c (hd c hc)
  have hloop : strToIntLoop 10 maxv ds 0 = none :=
    strToIntLoop_overflow 10 maxv (by norm_num) hmax ds 0 le_rfl (by omega)
      hvalid hval
  cases ds with
  | nil => simp at hval; omega
  | cons c cs =>
    obtain ⟨hp, hm, hcb, hco, hcx⟩ := digit_not_special c (hd c (by simp))
    have hsign : ¬ (minv < 0 ∧ (chAt (c :: cs) 0 = '+' ∨ chAt (c :: cs) 0 = '-')) := by
      rintro ⟨-, h | h⟩ <;> simp [chAt] at h <;> [exact hp h; exact hm h]
    rw [strToInt]
    simp only [if_neg hsign]
    by_cases h0 : chAt (c :: cs) 0 = '0'
    · rw [if_pos h0]
      cases cs with
      | nil =>
        exfalso
        simp [chAt] at h0
        subst h0
        have : listVal 10 ['0'] 0 = 0 := by decide
        omega
      | cons c2 cs2 =>
        obtain ⟨-, -, hb2, ho2, hx2⟩ := digit_not_special c2 (hd c2 (by simp))
        have e1 : chAt (c :: c2 :: cs2) (0 + 1) = c2 := rfl
        rw [e1, if_neg hb2, if_neg ho2, if_neg hx2]
        simp [hloop]
    · rw [if_neg h0]
      simp [hloop]

/-- Claim C10: for every integer parse (unsigned: `min_value = 0`; signed:
    `min_value < 0 ≤ max_value`), an input consisting of a base prefix
    `0b`/`0o`/`0x` followed by no digit valid in that base is NOT a parse
    failure: `strToInt` succeeds, stores the value 0, and reports exactly
    the two prefix bytes as consumed. -/
theorem C10_prefix_only_succeeds (minv maxv base : Int) (p : Char)
    (rest : List Char) (hmin : minv ≤ 0) (hmax : 0 ≤ maxv)
    (hp : (p = 'b' ∧ base = 2) ∨ (p = 'o' ∧ base = 8) ∨ (p = 'x' ∧ base = 16))
    (hd : digitValC base (chAt rest 0) < 0 ∨ base ≤ digitValC base (chAt rest 0)) :
    strToInt ('0' :: p :: rest) minv maxv = (2, some 0) := by
  have hloop := strToIntLoop_break base maxv rest hd
  obtain ⟨rfl, rfl⟩ | ⟨rfl, rfl⟩ | ⟨rfl, rfl⟩ := hp <;>
  · simp +decide [strToInt, chAt, hloop]
    omega

/-- witness for C10 at the concrete input `"0x"` with `int64_t` bounds. -/
theorem C10_prefix_only_succeeds_witness :
    strToInt ("0x".toList) i64min i64max = (2, some 0) :=
  C10_prefix_only_succeeds i64min i64max 16 'x' [] (by decide) (by decide)
    (by decide) (by decide)

/-- Claim C9 counterexample: `INT64_MIN` is within `int64_t`'s representable
    range, yet parsing its formatted literal `-0x8000000000000000` back with
    the `int64_t` bounds fails (`return 0`): the in-loop overflow guard
    compares the magnitude against `max_value` only, so a magnitude of
    `2^63` is rejected even though `-2^63` is representable. -/
theorem C9_roundtrip_cex_int64_min :
    strToInt ("-0x8000000000000000".toList) i64min i64max = (0, none) := by
  decide

/-- Claim C9 (amended): round-trips hold for every `uint64_t` value and for
    every `int64_t` value whose magnitude is at most `int64_t`'s maximum
    (every representable value except `INT64_MIN`); and every all-digit
    string denoting a value exceeding the type's maximum makes `strToInt`
    return 0 (parse failure) rather than a wrapped-around value. -/
theorem C9_strToInt_roundtrip_overflow :
    (∀ (b n : Nat), (b = 2 ∨ b = 8 ∨ b = 16) → (n : Int) ≤ u64max →
      strToInt ('0' :: basePrefixChar b :: natDigits b n) 0 u64max
        = (2 + (natDigits b n).length, some (n : Int)))
    ∧ (∀ (b : Nat) (v : Int), (b = 2 ∨ b = 8 ∨ b = 16) →
        (v.natAbs : Int) ≤ i64max →
      strToInt ((if v < 0 then ['-'] else []) ++
          '0' :: basePrefixChar b :: natDigits b v.natAbs) i64min i64max
        = ((if v < 0 then 3 else 2) + (natDigits b v.natAbs).length, some v))
    ∧ (∀ ds : List Char, (∀ c ∈ ds, c.isDigit) → u64max < listVal 10 ds 0 →
      strToInt ds 0 u64max = (0, none))
    ∧ (∀ ds : List Char, (∀ c ∈ ds, c.isDigit) → i64max < listVal 10 ds 0 →
      strToInt ds i64min i64max = (0, none)) := by
  refine ⟨?_, ?_, ?_, ?_⟩
  · intro b n hb hn
    have hloop := strToIntLoop_natDigits b hb u64max n hn
    have hnn : (0 : Int) ≤ (n : Int) := Int.ofNat_nonneg n
    have hm : (0 : Int) ≤ u64max := by norm_num [u64max]
    rcases hb with h | h | h <;> subst h <;>
    · norm_num at hloop
      simp +decide [strToInt, chAt, basePrefixChar, hloop]
      omega
  · intro b v hb hv
    have hloop := strToIntLoop_natDigits b hb i64max v.natAbs hv
    by_cases hneg : v < 0
    · rw [if_pos hneg, if_pos hneg]
      have habs : ((v.natAbs : Int)) = -v := by omega
      rw [habs] at hloop hv
      rcases hb with h | h | h <;> subst h <;>
      · norm_num at hloop
        simp +decide [strToInt, chAt, basePrefixChar, hloop]
        simp only [i64min, i64max] at hv ⊢
        omega
    · rw [if_neg hneg, if_neg hneg]
      have habs : ((v.natAbs : Int)) = v := by omega
      rw [habs] at hloop hv
      rcases hb with h | h | h <;> subst h <;>
      · norm_num at hloop
        simp +decide [strToInt, chAt, basePrefixChar, hloop]
        simp only [i64min, i64max] at hv ⊢
        omega
  · intro ds hd hval
    exact strToInt_overflow_digits 0 u64max (by norm_num [u64max]) ds hd hval
  · intro ds hd hval
    exact strToInt_overflow_digits i64min i64max (by norm_num [i64max]) ds hd
      hval

/-- witness for C9: roundtrip of `0xff` (unsigned), `-0x10` (signed), and
    overflow of twenty nines (unsigned). -/
theorem C9_strToInt_roundtrip_overflow_witness :
    strToInt ['0', 'x', 'f', 'f'] 0 u64max = (4, some 255)
    ∧ strToInt ['-', '0', 'x', '1', '0'] i64min i64max = (5, some (-16))
    ∧ strToInt (List.replicate 20 '9') 0 u64max = (0, none) := by
  refine ⟨?_, ?_, ?_⟩
  · have h := C9_strToInt_roundtrip_overflow.1 16 255 (by norm_num)
      (by norm_num [u64max])
    rw [show natDigits 16 255 = ['f', 'f'] from by decide] at h
    simpa [basePrefixChar] using h
  · have h := C9_strToInt_roundtrip_overflow.2.1 16 (-16) (by norm_num)
      (by norm_num [i64max])
    rw [show natDigits 16 (-16 : Int).natAbs = ['1', '0'] from by decide] at h
    simpa [basePrefixChar] using h
  · exact C9_strToInt_roundtrip_overflow.2.2.1 (List.replicate 20 '9')
      (by decide) (by decide)

/-! ## RoundArray theorems (claims C6, C7) -/

theorem mod_succ_pred (i n : Nat) (h : i < n) : ((i + 1) % n + n - 1) % n = i := by
  rcases Nat.lt_or_ge (i + 1) n with h1 | h1
  · rw [Nat.mod_eq_of_lt h1]
    have e : i + 1 + n - 1 = i + n := by omega
    rw [e, Nat.add_mod_right, Nat.mod_eq_of_lt h]
  · have h2 : i + 1 = n := by omega
    rw [h2, Nat.mod_self]
    have e : 0 + n - 1 = n - 1 := by omega
    rw [e, Nat.mod_eq_of_lt (show n - 1 < n by omega)]
    omega

theorem mod_pred_succ (l n : Nat) (h : l < n) :
    ((l + n - 1) % n + n + 1) % n = l := by
  have e : (l + n - 1) % n + n + 1 = ((l + n - 1) % n + 1) + n := by omega
  rw [e, Nat.add_mod_right]
  rcases Nat.eq_zero_or_pos l with rfl | hl
  · have e2 : 0 + n - 1 = n - 1 := by omega
    rw [e2, Nat.mod_eq_of_lt (show n - 1 < n by omega)]
    rw [Nat.sub_add_cancel (by omega), Nat.mod_self]
  · have e2 : l + n - 1 = (l - 1) + n := by omega
    rw [e2, Nat.add_mod_right, Nat.mod_eq_of_lt (show l - 1 < n by omega)]
    rw [Nat.sub_add_cancel (by omega), Nat.mod_eq_of_lt h]

/-- after `add`, the slot just behind the write cursor holds the trimmed
    line (whether or not the dedup check fired). -/
theorem RoundArray.add_slot (st : RoundArray) (s : List Char)
    (h : st.index < st.strs.length) :
    (st.add s).strs.getD
        (((st.add s).index + (st.add s).strs.length - 1) %
          (st.add s).strs.length) []
      = trimTrailingWS s := by
  rw [RoundArray.add]
  by_cases hd : st.strs.getD ((st.index + st.strs.length - 1) % st.strs.length) []
      == trimTrailingWS s
  · rw [if_pos hd]
    exact eq_of_beq hd
  · rw [if_neg hd]
    simp only [List.length_set]
    rw [mod_succ_pred st.index st.strs.length h]
    simp [List.getD_eq_getElem?_getD, List.getElem?_set_self, h]

/-- adding the same (trimmed) text right after an `add` is a no-op. -/
theorem RoundArray.add_dedup (st : RoundArray) (s s2 : List Char)
    (h : st.index < st.strs.length)
    (he : trimTrailingWS s2 = trimTrailingWS s) :
    (st.add s).add s2 = st.add s := by
  have hslot := RoundArray.add_slot st s h
  conv_lhs => rw [RoundArray.add]
  rw [he, if_pos (by rw [hslot]; exact beq_self_eq_true _)]

/-- Claim C6: with capacity 3, after `add "a"`,`add "b"`,`add "c"`,`add "d"`
    three successive `go_up` (recall_previous) calls return "d","c","b" in
    that order; and a second `add` with the same (trailing-whitespace-trimmed)
    line is a no-op that advances no cursor. -/
theorem C6_history_capacity3_and_dedup :
    (((((mkRoundArray 3 true).add ['a']).add ['b']).add ['c']).add
        ['d']).go_up.1 = ['d']
    ∧ ((((((mkRoundArray 3 true).add ['a']).add ['b']).add ['c']).add
        ['d']).go_up.2).go_up.1 = ['c']
    ∧ (((((((mkRoundArray 3 true).add ['a']).add ['b']).add ['c']).add
        ['d']).go_up.2).go_up.2).go_up.1 = ['b']
    ∧ (∀ (st : RoundArray) (s s2 : List Char), st.index < st.strs.length →
        trimTrailingWS s2 = trimTrailingWS s → (st.add s).add s2 = st.add s) :=
  ⟨by decide, by decide, by decide, RoundArray.add_dedup⟩

/-- witness for C6's dedup clause at a concrete buffer. -/
theorem C6_history_capacity3_and_dedup_witness :
    ((mkRoundArray 3 true).add ['a']).add ['a'] = (mkRoundArray 3 true).add ['a'] :=
  C6_history_capacity3_and_dedup.2.2.2 (mkRoundArray 3 true) ['a'] ['a']
    (by decide) rfl

/-- Claim C7 counterexample: buffer `["a", "", ""]` with browse cursor 0 and
    the skip-empty policy active.  `go_up` lands on the empty slot 2 and —
    contrary to the claim's "steps one further backward" (which would be
    slot 1, returning its empty text) — steps one FORWARD, back to slot 0,
    returning "a". -/
theorem C7_skip_empty_cex :
    (RoundArray.mk [['a'], [], []] 0 0 true).go_up
        = (['a'], RoundArray.mk [['a'], [], []] 0 0 true)
    ∧ (RoundArray.mk [['a'], [], []] 0 0 true).go_up.2.lookingIndex ≠ 1 := by
  constructor <;> decide

/-- Claim C7 (amended): `go_up` moves the browse cursor one step backward
    (wrapping); if the slot it lands on is empty and the skip policy is
    active, it steps one step FORWARD again — returning to the original
    position — and returns that slot's text. -/
theorem C7_skip_empty_amended (st : RoundArray)
    (hb : st.block_if_empty = true)
    (hn : st.lookingIndex < st.strs.length) :
    (st.strs.getD ((st.lookingIndex + st.strs.length - 1) % st.strs.length) []
        = [] →
      st.go_up = (st.strs.getD st.lookingIndex [], st))
    ∧ (st.strs.getD ((st.lookingIndex + st.strs.length - 1) % st.strs.length) []
        ≠ [] →
      st.go_up =
        (st.strs.getD ((st.lookingIndex + st.strs.length - 1) % st.strs.length) [],
         { st with lookingIndex :=
            (st.lookingIndex + st.strs.length - 1) % st.strs.length })) := by
  obtain ⟨strs, idx, look, block⟩ := st
  dsimp only at hb hn ⊢
  subst hb
  constructor
  · intro h
    rw [RoundArray.go_up]
    dsimp only
    simp only [h, Bool.and_true, if_pos (beq_self_eq_true ([] : List Char))]
    rw [mod_pred_succ look strs.length hn]
  · intro h
    rw [RoundArray.go_up]
    dsimp only
    simp only [Bool.and_true]
    rw [if_neg (by simp only [beq_iff_eq]; exact h)]

/-- witness for C7 (amended) at a concrete buffer, nonempty-slot branch. -/
theorem C7_skip_empty_amended_witness :
    (RoundArray.mk [['a'], ['b'], ['c']] 0 1 true).go_up
      = (['a'], RoundArray.mk [['a'], ['b'], ['c']] 0 0 true) := by
  have h := (C7_skip_empty_amended (RoundArray.mk [['a'], ['b'], ['c']] 0 1 true)
    rfl (by decide)).2 (by decide)
  simpa using h

/-! ## StateMachine theorems (claim C3) -/

/-- Claim C3 counterexample: the recognizer armed by ESC (`begin`) and fed
    the single byte `z` (no `[`) returns an EMPTY pass-through buffer — the
    `z` byte is absorbed (`chars` never contained it), not returned as
    `['z']` as the claim states. -/
theorem C3_escape_z_cex :
    smAppend handlerBound (smBegin ⟨false, []⟩) 'z' = (⟨false, []⟩, [], none)
    ∧ (smAppend handlerBound (smBegin ⟨false, []⟩) 'z').2.1 ≠ ['z'] := by
  constructor <;> decide

/-- Claim C3 (amended): armed by ESC and then fed `[` and `A`, the
    recognizer invokes exactly the action bound to `A` and returns empty
    pass-through buffers (all three bytes consumed); armed and fed the
    single byte `z`, it invokes no action, disarms, and returns an EMPTY
    pass-through buffer (the `z` byte is dropped, not passed through). -/
theorem C3_escape_recognizer_amended (bound : Char → Bool) (sm : SMState)
    (hA : bound 'A' = true) :
    smAppend bound (smBegin sm) '[' = (⟨true, ['[']⟩, [], none)
    ∧ smAppend bound ⟨true, ['[']⟩ 'A' = (⟨false, []⟩, [], some 'A')
    ∧ smAppend bound (smBegin sm) 'z' = (⟨false, []⟩, [], none) := by
  refine ⟨?_, ?_, ?_⟩
  · simp [smAppend, smBegin]
  · simp +decide [smAppend, hA]
  · simp +decide [smAppend, smBegin]

/-- witness for C3 (amended) with the handler's actual bindings. -/
theorem C3_escape_recognizer_amended_witness :
    smAppend handlerBound (smBegin ⟨false, []⟩) '[' = (⟨true, ['[']⟩, [], none)
    ∧ smAppend handlerBound ⟨true, ['[']⟩ 'A' = (⟨false, []⟩, [], some 'A')
    ∧ smAppend handlerBound (smBegin ⟨false, []⟩) 'z' = (⟨false, []⟩, [], none) :=
  C3_escape_recognizer_amended handlerBound ⟨false, []⟩ rfl

/-! ## String-preprocessing lemmas for processCommand (claims C1, C4, C5) -/

theorem char_le_iff_toNat (a b : Char) : a ≤ b ↔ a.toNat ≤ b.toNat := by
  rw [Char.le_def, UInt32.le_def, BitVec.le_def]
  exact Iff.rfl

theorem toLower_fix (c : Char) (h : 97 ≤ c.toNat) : c.toLower = c := by
  rw [Char.toLower]
  split
  · next hh => exfalso; simp [Char.toNat] at *; omega
  · rfl

theorem ws4_false_of_lower (c : Char) (h : 97 ≤ c.toNat) : isWS4 c = false := by
  have h1 : c ≠ ' ' := fun he => by subst he; revert h; decide
  have h2 : c ≠ '\n' := fun he => by subst he; revert h; decide
  have h3 : c ≠ '\r' := fun he => by subst he; revert h; decide
  have h4 : c ≠ '\t' := fun he => by subst he; revert h; decide
  simp [isWS4, h1, h2, h3, h4]

theorem isLetterC_of_lower (c : Char) (h1 : 97 ≤ c.toNat) (h2 : c.toNat ≤ 122) :
    isLetterC c = true := by
  simp only [isLetterC, Bool.or_eq_true, Bool.and_eq_true, decide_eq_true_eq]
  left
  rw [char_le_iff_toNat, char_le_iff_toNat]
  exact ⟨by rw [show ('a').toNat = 97 from rfl]; omega,
         by rw [show ('z').toNat = 122 from rfl]; omega⟩

theorem space_false_of_lower (c : Char) (h : 97 ≤ c.toNat) : (c == ' ') = false := by
  have h1 : c ≠ ' ' := fun he => by subst he; revert h; decide
  simp [h1]

theorem toLowerStr_fix (l : List Char) (h : ∀ c ∈ l, 97 ≤ c.toNat) :
    toLowerStr l = l := by
  induction l with
  | nil => rfl
  | cons c cs ih =>
    rw [toLowerStr, List.map_cons, toLower_fix c (h c (by simp))]
    have h2 := ih (fun x hx => h x (by simp [hx]))
    rw [toLowerStr] at h2
    rw [h2]

theorem trimTrailingWS_no_ws (l : List Char) (h : ∀ c ∈ l, isWS4 c = false) :
    trimTrailingWS l = l := by
  induction l with
  | nil => rfl
  | cons c cs ih =>
    rw [trimTrailingWS]
    rw [ih (fun x hx => h x (by simp [hx]))]
    simp [h c (by simp)]

theorem trimTrailingWS_append (a b : List Char) (hb : trimTrailingWS b = b)
    (hne : b ≠ []) : trimTrailingWS (a ++ b) = a ++ b := by
  induction a with
  | nil => simpa using hb
  | cons c a2 ih =>
    rw [List.cons_append, trimTrailingWS, ih]
    have h2 : (a2 ++ b).isEmpty = false := by
      simp [List.isEmpty_iff]
      intro _
      exact hne
    simp [h2]

theorem eraseToFirstLetter_head (c : Char) (l : List Char)
    (h : isLetterC c = true) : eraseToFirstLetter (c :: l) = c :: l := by
  rw [eraseToFirstLetter, List.findIdx?_cons, if_pos h]
  rfl

theorem wsAdjust_head (c : Char) (l : List Char) (h : isWS4 c = false) :
    wsAdjust (c :: l) = c :: l := by
  rw [wsAdjust, List.findIdx?_cons]
  simp [h]

theorem findIdx_space_split (name tail : List Char)
    (h : ∀ c ∈ name, (c == ' ') = false) :
    (name ++ ' ' :: tail).findIdx? (· == ' ') = some name.length := by
  rw [List.findIdx?_append]
  rw [List.findIdx?_eq_none_iff.2 h]
  rw [List.findIdx?_cons]
  simp

theorem preprocess_name_tail (name tail : List Char)
    (hn1 : name ≠ []) (hn2 : ∀ c ∈ name, 97 ≤ c.toNat ∧ c.toNat ≤ 122)
    (ht1 : toLowerStr tail = tail) (ht2 : trimTrailingWS tail = tail)
    (ht3 : tail ≠ []) (ht4 : wsAdjust tail = tail) :
    preprocess (name ++ ' ' :: tail) = (name, tail) := by
  obtain ⟨c0, name2, rfl⟩ : ∃ c0 name2, name = c0 :: name2 := by
    cases name with
    | nil => exact absurd rfl hn1
    | cons a b => exact ⟨a, b, rfl⟩
  rw [preprocess]
  have ht1m := ht1
  rw [toLowerStr] at ht1m
  rw [show toLowerStr ((c0 :: name2) ++ ' ' :: tail) = (c0 :: name2) ++ ' ' :: tail by
    rw [toLowerStr, List.map_append]
    rw [show List.map Char.toLower (c0 :: name2) = c0 :: name2 by
      have h2 := toLowerStr_fix (c0 :: name2) (fun c hc => (hn2 c hc).1)
      rw [toLowerStr] at h2
      exact h2]
    rw [List.map_cons, show (' ').toLower = ' ' from rfl, ht1m]]
  rw [trimTrailingWS_append _ _ (by
      rw [trimTrailingWS, ht2]
      simp [List.isEmpty_iff, ht3]) (by simp)]
  rw [show (c0 :: name2) ++ ' ' :: tail = c0 :: (name2 ++ ' ' :: tail) from rfl]
  rw [eraseToFirstLetter_head c0 _ (isLetterC_of_lower c0 (hn2 c0 (by simp)).1
    (hn2 c0 (by simp)).2)]
  rw [show c0 :: (name2 ++ ' ' :: tail) = (c0 :: name2) ++ ' ' :: tail from rfl]
  rw [findIdx_space_split _ _ (fun c hc => space_false_of_lower c (hn2 c hc).1)]
  dsimp only
  rw [List.take_left]
  rw [show (c0 :: name2) ++ ' ' :: tail = ((c0 :: name2) ++ [' ']) ++ tail by simp]
  rw [show (c0 :: name2).length + 1 = ((c0 :: name2) ++ [' ']).length by simp]
  rw [List.drop_left]
  rw [ht4]

theorem preprocess_name_only (name : List Char)
    (hn1 : name ≠ []) (hn2 : ∀ c ∈ name, 97 ≤ c.toNat ∧ c.toNat ≤ 122) :
    preprocess name = (name, []) := by
  obtain ⟨c0, name2, rfl⟩ : ∃ c0 name2, name = c0 :: name2 := by
    cases name with
    | nil => exact absurd rfl hn1
    | cons a b => exact ⟨a, b, rfl⟩
  rw [preprocess]
  rw [show toLowerStr (c0 :: name2) = c0 :: name2 from
    toLowerStr_fix _ (fun c hc => (hn2 c hc).1)]
  rw [trimTrailingWS_no_ws _ (fun c hc => ws4_false_of_lower c (hn2 c hc).1)]
  rw [eraseToFirstLetter_head c0 _ (isLetterC_of_lower c0 (hn2 c0 (by simp)).1
    (hn2 c0 (by simp)).2)]
  rw [List.findIdx?_eq_none_iff.2
    (fun c hc => space_false_of_lower c (hn2 c hc).1)]

/-! ## MathCommand theorems (claims C1, C4) -/

/-- the MathCommand dispatch path of `processCommand` for a line
    `name verb x` whose name resolves (Commands first, then MathCommands)
    and whose value token converts under `strtod`: the outcome is decided by
    the `switch` on `stringToMathOP verb`. -/
theorem processCommand_math_general (D : Type) (ops : DoubleOps D)
    (st : ParserState D) (name verb x : List Char) (xv : D) (k : Nat)
    (mc : MathCmd D)
    (hn1 : name ≠ []) (hn2 : ∀ c ∈ name, 97 ≤ c.toNat ∧ c.toNat ≤ 122)
    (hcmds : ∀ cd ∈ st.commands, cd.name ≠ name)
    (hmath : mathFind st.mathCmds name = some mc)
    (hv1 : verb ≠ []) (hv2 : toLowerStr verb = verb)
    (hv3 : ∀ c ∈ verb, isWS4 c = false)
    (hx1 : ops.strtod x = some (xv, k))
    (hx2 : toLowerStr x = x) (hx3 : ∀ c ∈ x, isWS4 c = false) :
    processCommand ops st (name ++ ' ' :: (verb ++ ' ' :: x))
      = match applyMathOp ops (stringToMathOP verb) mc.val xv with
        | none => (.failure (errUnknownOperator verb), st)
        | some w => (.mathSuccess w (stringToMathOP verb),
            { st with mathCmds := mathSet st.mathCmds name w }) := by
  have hxne : x ≠ [] := by
    intro he
    subst he
    rw [ops.strtod_nil] at hx1
    cases hx1
  have hx4 : trimTrailingWS x = x := trimTrailingWS_no_ws x hx3
  have hs1 : ∀ c ∈ verb, (c == ' ') = false := by
    intro c hc
    have h := hv3 c hc
    rw [isWS4] at h
    simp at h
    simp [h.1]
  have ht2 : trimTrailingWS (verb ++ ' ' :: x) = verb ++ ' ' :: x := by
    refine trimTrailingWS_append verb (' ' :: x) ?_ (by simp)
    rw [trimTrailingWS, hx4]
    simp [List.isEmpty_iff, hxne]
  have hpre : preprocess (name ++ ' ' :: (verb ++ ' ' :: x))
      = (name, verb ++ ' ' :: x) := by
    refine preprocess_name_tail name (verb ++ ' ' :: x) hn1 hn2 ?_ ht2 (by simp) ?_
    · rw [toLowerStr, List.map_append, List.map_cons]
      have hv2m := hv2
      rw [toLowerStr] at hv2m
      have hx2m := hx2
      rw [toLowerStr] at hx2m
      rw [hv2m, show (' ').toLower = ' ' from rfl, hx2m]
    · obtain ⟨v0, verb2, rfl⟩ : ∃ v0 verb2, verb = v0 :: verb2 := by
        cases verb with
        | nil => exact absurd rfl hv1
        | cons a b => exact ⟨a, b, rfl⟩
      exact wsAdjust_head v0 _ (hv3 v0 (by simp))
  rw [processCommand, hpre]
  dsimp only
  rw [cmdFind, List.find?_eq_none.2 (fun cd hcd => by simp [hcmds cd hcd])]
  rw [hmath]
  dsimp only
  rw [ht2]
  rw [show (verb ++ ' ' :: x).isEmpty = false by simp]
  simp only [Bool.false_eq_true, if_false]
  rw [findIdx_space_split verb x hs1]
  dsimp only
  rw [List.take_left]
  rw [show verb ++ ' ' :: x = (verb ++ [' ']) ++ x by simp]
  rw [show verb.length + 1 = (verb ++ [' ']).length by simp]
  rw [List.drop_left]
  rw [hx1]

/-- the MathCommand path for a bare `name` line: callback invoked with the
    current value and `EMPTY`, no mutation. -/
theorem processCommand_math_empty (D : Type) (ops : DoubleOps D)
    (st : ParserState D) (name : List Char) (mc : MathCmd D)
    (hn1 : name ≠ []) (hn2 : ∀ c ∈ name, 97 ≤ c.toNat ∧ c.toNat ≤ 122)
    (hcmds : ∀ cd ∈ st.commands, cd.name ≠ name)
    (hmath : mathFind st.mathCmds name = some mc) :
    processCommand ops st name = (.mathSuccess mc.val .EMPTY, st) := by
  rw [processCommand, preprocess_name_only name hn1 hn2]
  dsimp only
  rw [cmdFind, List.find?_eq_none.2 (fun cd hcd => by simp [hcmds cd hcd])]
  rw [hmath]
  rfl

/-- Claim C1: for a registered MathCommand bound to a cell holding `v` and a
    line `name verb x` with `x` converting under `strtod` to `xv`:
    `add`/`sub`/`mult`/`div`/`mod`/`pow` store `v ⊕ xv` with the matching
    double operation, `set` stores `xv`; the callback is invoked with the
    post-update value and the resolved operator, and the call succeeds.
    For the bare line `name`, the callback is invoked with operator `EMPTY`
    and the current value, and the cell is not mutated. -/
theorem C1_math_command_semantics (D : Type) (ops : DoubleOps D)
    (st : ParserState D) (name x : List Char) (v xv : D) (k : Nat)
    (mc : MathCmd D) (op : MathOP)
    (hn1 : name ≠ []) (hn2 : ∀ c ∈ name, 97 ≤ c.toNat ∧ c.toNat ≤ 122)
    (hcmds : ∀ cd ∈ st.commands, cd.name ≠ name)
    (hmath : mathFind st.mathCmds name = some mc) (hval : mc.val = v)
    (hop : op ∈ [MathOP.ADD, .SUB, .MUL, .DIV, .MOD, .POW, .SET])
    (hx1 : ops.strtod x = some (xv, k))
    (hx2 : toLowerStr x = x) (hx3 : ∀ c ∈ x, isWS4 c = false) :
    (processCommand ops st (name ++ ' ' :: (mathOPToString op ++ ' ' :: x))
      = (.mathSuccess (match op with
          | .ADD => ops.add v xv | .SUB => ops.sub v xv | .MUL => ops.mul v xv
          | .DIV => ops.div v xv | .MOD => ops.fmod v xv | .POW => ops.pow v xv
          | _ => xv) op,
         { st with mathCmds := mathSet st.mathCmds name (match op with
          | .ADD => ops.add v xv | .SUB => ops.sub v xv | .MUL => ops.mul v xv
          | .DIV => ops.div v xv | .MOD => ops.fmod v xv | .POW => ops.pow v xv
          | _ => xv) }))
    ∧ processCommand ops st name = (.mathSuccess v .EMPTY, st) := by
  subst hval
  constructor
  · fin_cases hop <;>
    · rw [processCommand_math_general D ops st name _ x xv k mc hn1 hn2 hcmds
        hmath (by decide) (by decide) (by decide) hx1 hx2 hx3]
      rfl
  · exact processCommand_math_empty D ops st name mc hn1 hn2 hcmds hmath

/-- Claim C4: a MathCommand line `name verb x` whose `x` converts as a
    double but whose `verb` is none of the seven operator verbs fails with
    the unknown-operator message, does not mutate the bound cell (the state
    is returned unchanged), and does not invoke the callback. -/
theorem C4_unknown_operator (D : Type) (ops : DoubleOps D)
    (st : ParserState D) (name verb x : List Char) (xv : D) (k : Nat)
    (mc : MathCmd D)
    (hn1 : name ≠ []) (hn2 : ∀ c ∈ name, 97 ≤ c.toNat ∧ c.toNat ≤ 122)
    (hcmds : ∀ cd ∈ st.commands, cd.name ≠ name)
    (hmath : mathFind st.mathCmds name = some mc)
    (hv1 : verb ≠ []) (hv2 : toLowerStr verb = verb)
    (hv3 : ∀ c ∈ verb, isWS4 c = false)
    (hv4 : verb ∉ ["add".toList, "sub".toList, "mult".toList, "div".toList,
       "mod".toList, "pow".toList, "set".toList])
    (hx1 : ops.strtod x = some (xv, k))
    (hx2 : toLowerStr x = x) (hx3 : ∀ c ∈ x, isWS4 c = false) :
    processCommand ops st (name ++ ' ' :: (verb ++ ' ' :: x))
      = (.failure (errUnknownOperator verb), st) := by
  rw [processCommand_math_general D ops st name verb x xv k mc hn1 hn2 hcmds
    hmath hv1 hv2 hv3 hx1 hx2 hx3]
  simp only [List.mem_cons, List.not_mem_nil, or_false, not_or] at hv4
  obtain ⟨e1, e2, e3, e4, e5, e6, e7⟩ := hv4
  rw [show stringToMathOP verb = .MathOPCount by
    simp only [stringToMathOP, beq_iff_eq]
    rw [if_neg e1, if_neg e2, if_neg e3, if_neg e4, if_neg e5, if_neg e6,
      if_neg e7, if_neg hv1]]
  rfl

/-- witness for C1: `gain` bound to 10, `gain add 5` gives 15; bare `gain`
    reads 10. -/
theorem C1_math_command_semantics_witness :
    (processCommand intOps ⟨[], [⟨"gain".toList, 10, []⟩]⟩ ("gain add 5".toList)
      = (.mathSuccess 15 .ADD, ⟨[], [⟨"gain".toList, 15, []⟩]⟩))
    ∧ (processCommand intOps ⟨[], [⟨"gain".toList, 10, []⟩]⟩ ("gain".toList)
      = (.mathSuccess 10 .EMPTY, ⟨[], [⟨"gain".toList, 10, []⟩]⟩)) := by
  have h := C1_math_command_semantics Int intOps ⟨[], [⟨"gain".toList, 10, []⟩]⟩
    ("gain".toList) ("5".toList) 10 5 1 ⟨"gain".toList, 10, []⟩ .ADD
    (by decide) (by decide) (by simp) (by decide) rfl (by decide)
    (by decide) (by decide) (by decide)
  exact ⟨h.1, h.2⟩

/-- witness for C4: `gain foo 1` fails with the unknown-operator message and
    leaves the cell at 10. -/
theorem C4_unknown_operator_witness :
    processCommand intOps ⟨[], [⟨"gain".toList, 10, []⟩]⟩ ("gain foo 1".toList)
      = (.failure (errUnknownOperator "foo".toList),
         ⟨[], [⟨"gain".toList, 10, []⟩]⟩) := by
  have h := C4_unknown_operator Int intOps ⟨[], [⟨"gain".toList, 10, []⟩]⟩
    ("gain".toList) ("foo".toList) ("1".toList) 1 1 ⟨"gain".toList, 10, []⟩
    (by decide) (by decide) (by simp) (by decide) (by decide) (by decide)
    (by decide) (by decide) (by decide) (by decide) (by decide)
  exact h

/-! ## Argument-loop theorems (claims C5, C8) -/

theorem parseLoop_append (D : Type) (ops : DoubleOps D) (a b : List Char) :
    ∀ (command : List Char) (acc : List (Argument D)) (optional done : Bool),
    parseLoop ops (a ++ b) command acc optional done
      = match parseLoop ops a command acc optional done with
        | .error e => .error e
        | .ok (acc2, cmd2, opt2, done2) => parseLoop ops b cmd2 acc2 opt2 done2 := by
  induction a with
  | nil => intro command acc optional done; rfl
  | cons t ts ih =>
    intro command acc optional done
    simp only [List.cons_append]
    rw [parseLoop]
    conv_rhs => rw [parseLoop]
    by_cases hdone : done = true
    · rw [if_pos hdone, if_pos hdone, ih]
    · rw [if_neg hdone, if_neg hdone]
      by_cases h1 : (t == 'd') = true
      · rw [if_pos h1, if_pos h1]
        cases hst : ops.strtod command with
        | none =>
          by_cases hopt : optional = true
          · rw [if_pos hopt, if_pos hopt, ih]
          · rw [if_neg hopt, if_neg hopt]
        | some vk =>
          obtain ⟨v, k⟩ := vk
          dsimp only
          rw [ih]
      · rw [if_neg h1, if_neg h1]
        by_cases h2 : (t == 'u') = true
        · rw [if_pos h2, if_pos h2]
          by_cases hz : ((strToInt command 0 u64max).1 == 0) = true
          · rw [if_pos hz, if_pos hz]
            by_cases hopt : optional = true
            · rw [if_pos hopt, if_pos hopt, ih]
            · rw [if_neg hopt, if_neg hopt]
          · rw [if_neg hz, if_neg hz, ih]
        · rw [if_neg h2, if_neg h2]
          by_cases h3 : (t == 'i') = true
          · rw [if_pos h3, if_pos h3]
            by_cases hz : ((strToInt command i64min i64max).1 == 0) = true
            · rw [if_pos hz, if_pos hz]
              by_cases hopt : optional = true
              · rw [if_pos hopt, if_pos hopt, ih]
              · rw [if_neg hopt, if_neg hopt]
            · rw [if_neg hz, if_neg hz, ih]
          · rw [if_neg h3, if_neg h3]
            by_cases h4 : (t == 's') = true
            · rw [if_pos h4, if_pos h4]
              by_cases hz : ((parseString command).1 == 0) = true
              · rw [if_pos hz, if_pos hz]
                by_cases hopt : optional = true
                · rw [if_pos hopt, if_pos hopt, ih]
                · rw [if_neg hopt, if_neg hopt]
              · rw [if_neg hz, if_neg hz, ih]
            · rw [if_neg h4, if_neg h4]
              by_cases h5 : (t == 'o') = true
              · rw [if_pos h5, if_pos h5, ih]
              · rw [if_neg h5, if_neg h5, ih]

theorem parseLoop_optional_empty (D : Type) (ops : DoubleOps D) (post : List Char) :
    ∀ (acc : List (Argument D)) (done : Bool),
    ∃ done2, parseLoop ops post [] acc true done
      = .ok (acc ++ (post.filter (fun t => t != 'o')).map
          (fun _ => Argument.absent), [], true, done2) := by
  induction post with
  | nil => intro acc done; exact ⟨done, by simp [parseLoop]⟩
  | cons t ts ih =>
    intro acc done
    rw [parseLoop]
    by_cases hdone : done = true
    · rw [if_pos hdone]
      by_cases ho : (t == 'o') = true
      · obtain rfl := eq_of_beq ho
        rw [if_pos (by decide)]
        obtain ⟨d2, hd2⟩ := ih acc done
        exact ⟨d2, by rw [hd2]; simp [List.filter_cons]⟩
      · rw [if_neg ho]
        obtain ⟨d2, hd2⟩ := ih (acc ++ [Argument.absent]) done
        exact ⟨d2, by
          rw [hd2]
          simp [List.filter_cons,
            show t ≠ 'o' from fun he => ho (by subst he; rfl)]⟩
    · rw [if_neg hdone]
      by_cases h1 : (t == 'd') = true
      · obtain rfl := eq_of_beq h1
        rw [if_pos (by decide), ops.strtod_nil]
        dsimp only
        rw [if_pos rfl]
        obtain ⟨d2, hd2⟩ := ih (acc ++ [Argument.absent]) true
        exact ⟨d2, by rw [hd2]; simp [List.filter_cons]⟩
      · rw [if_neg h1]
        by_cases h2 : (t == 'u') = true
        · obtain rfl := eq_of_beq h2
          rw [if_pos (by decide)]
          dsimp only
          rw [if_pos (by decide), if_pos rfl]
          obtain ⟨d2, hd2⟩ := ih (acc ++ [Argument.absent]) true
          exact ⟨d2, by rw [hd2]; simp [List.filter_cons]⟩
        · rw [if_neg h2]
          by_cases h3 : (t == 'i') = true
          · obtain rfl := eq_of_beq h3
            rw [if_pos (by decide)]
            dsimp only
            rw [if_pos (by decide), if_pos rfl]
            obtain ⟨d2, hd2⟩ := ih (acc ++ [Argument.absent]) true
            exact ⟨d2, by rw [hd2]; simp [List.filter_cons]⟩
          · rw [if_neg h3]
            by_cases h4 : (t == 's') = true
            · obtain rfl := eq_of_beq h4
              rw [if_pos (by decide)]
              dsimp only
              rw [if_pos (by decide), if_pos rfl]
              obtain ⟨d2, hd2⟩ := ih (acc ++ [Argument.absent]) true
              exact ⟨d2, by rw [hd2]; simp [List.filter_cons]⟩
            · rw [if_neg h4]
              by_cases h5 : (t == 'o') = true
              · obtain rfl := eq_of_beq h5
                rw [if_pos (by decide)]
                obtain ⟨d2, hd2⟩ := ih acc done
                exact ⟨d2, by rw [hd2]; simp [List.filter_cons]⟩
              · rw [if_neg h5]
                obtain ⟨d2, hd2⟩ := ih (acc ++ [Argument.absent]) done
                exact ⟨d2, by
                  rw [hd2]
                  simp [List.filter_cons,
                    show t ≠ 'o' from fun he => h5 (by subst he; rfl)]⟩

/-- Claim C5 counterexample: command `f` with signature `od` and the line
    `f abc` (a malformed, non-empty token at the optional position): the
    handler is NOT invoked — the unconsumed text trips the too-many-arguments
    check and `processCommand` fails. -/
theorem C5_optional_malformed_cex :
    processCommand intOps ⟨[⟨"f".toList, "od".toList, []⟩], []⟩ ("f abc".toList)
      = (.failure errTooManyArgs, ⟨[⟨"f".toList, "od".toList, []⟩], []⟩) := by
  decide

/-- Claim C5 (amended): for a registered Command whose signature is
    `pre ++ 'o' :: post`, a line whose tail is consumed exactly by the
    types in `pre` (every later token OMITTED — the failing parses at and
    after the marker see an exhausted tail) still invokes the handler and
    succeeds, with every position after the marker filled with the absent
    Argument; absent Arguments yield the caller-supplied default through
    the `...Or` accessors.  (When a malformed non-whitespace token is
    present at the optional position instead, the command fails with
    too-many-arguments — see the counterexample.) -/
theorem C5_optional_marker_amended (D : Type) (ops : DoubleOps D)
    (st : ParserState D) (name tail pre post : List Char)
    (args : List (Argument D)) (opt2 : Bool) (cmd0 : Command)
    (hn1 : name ≠ []) (hn2 : ∀ c ∈ name, 97 ≤ c.toNat ∧ c.toNat ≤ 122)
    (hfind : cmdFind st.commands name = some cmd0)
    (hsig : cmd0.argTypes = pre ++ 'o' :: post)
    (ht1 : toLowerStr tail = tail) (ht2 : trimTrailingWS tail = tail)
    (ht3 : tail ≠ []) (ht4 : wsAdjust tail = tail)
    (hloop : parseLoop ops pre tail [] false false = .ok (args, [], opt2, false)) :
    (processCommand ops st (name ++ ' ' :: tail)
      = (.cmdSuccess (args ++ (post.filter (fun t => t != 'o')).map
          (fun _ => Argument.absent)), st))
    ∧ (∀ dflt : D, (Argument.absent (D := D)).asDoubleOr dflt = some dflt)
    ∧ (∀ dflt : Int, (Argument.absent (D := D)).asUInt64Or dflt = some dflt)
    ∧ (∀ dflt : Int, (Argument.absent (D := D)).asInt64Or dflt = some dflt)
    ∧ (∀ dflt : List Char,
        (Argument.absent (D := D)).asStringOr dflt = some dflt) := by
  refine ⟨?_, fun _ => rfl, fun _ => rfl, fun _ => rfl, fun _ => rfl⟩
  rw [processCommand, preprocess_name_tail name tail hn1 hn2 ht1 ht2 ht3 ht4]
  dsimp only
  rw [hfind]
  dsimp only
  rw [hsig]
  rw [parseLoop_append D ops pre ('o' :: post) tail [] false false, hloop]
  dsimp only
  rw [parseLoop]
  rw [if_neg (by decide), if_neg (by decide), if_neg (by decide),
    if_neg (by decide), if_neg (by decide), if_pos (by decide)]
  obtain ⟨d2, hd2⟩ := parseLoop_optional_empty D ops post args false
  rw [hd2]
  rfl

/-- Claim C8 (amended): after a successfully parsed unsigned or signed
    integer token of `k` bytes, exactly ONE byte immediately following the
    token is consumed if one is present — whitespace or not; nothing more is
    consumed when the token ends the tail. -/
theorem C8_integer_separator_amended (D : Type) (ops : DoubleOps D)
    (ts command : List Char) (acc : List (Argument D)) (opt : Bool)
    (v : Int) (k : Nat) :
    (strToInt command 0 u64max = (k, some v) → k ≠ 0 →
      parseLoop ops ('u' :: ts) command acc opt false
        = parseLoop ops ts
            (if k < command.length then command.drop (k + 1) else [])
            (acc ++ [.u v]) opt false)
    ∧ (strToInt command i64min i64max = (k, some v) → k ≠ 0 →
      parseLoop ops ('i' :: ts) command acc opt false
        = parseLoop ops ts
            (if k < command.length then command.drop (k + 1) else [])
            (acc ++ [.i v]) opt false) := by
  have hdrop : dropSep (command.drop k)
      = if k < command.length then command.drop (k + 1) else [] := by
    rw [dropSep]
    by_cases h : k < command.length
    · rw [if_pos h]
      rw [if_neg (by
        simp only [List.isEmpty_iff, List.drop_eq_nil_iff]
        omega)]
      rw [List.drop_one, List.tail_drop]
    · rw [if_neg h]
      rw [List.drop_eq_nil_of_le (by omega)]
      rfl
  constructor
  · intro hs hk
    rw [parseLoop]
    rw [if_neg (by decide), if_neg (by decide), if_pos (by decide)]
    dsimp only
    rw [hs]
    dsimp only
    rw [if_neg (by simp [hk]), hdrop]
    rfl
  · intro hs hk
    rw [parseLoop]
    rw [if_neg (by decide), if_neg (by decide), if_neg (by decide),
      if_pos (by decide)]
    dsimp only
    rw [hs]
    dsimp only
    rw [if_neg (by simp [hk]), hdrop]
    rfl

/-- witness for C5 (amended): signature `dod`, line `f 1`: handler invoked
    with the double 1 and one absent Argument. -/
theorem C5_optional_marker_amended_witness :
    processCommand intOps ⟨[⟨"f".toList, "dod".toList, []⟩], []⟩ ("f 1".toList)
      = (.cmdSuccess [.d 1, .absent], ⟨[⟨"f".toList, "dod".toList, []⟩], []⟩) := by
  have h := (C5_optional_marker_amended Int intOps
    ⟨[⟨"f".toList, "dod".toList, []⟩], []⟩ ("f".toList) ("1".toList)
    ['d'] ['d'] [.d 1] false ⟨"f".toList, "dod".toList, []⟩
    (by decide) (by decide) rfl (by decide) (by decide) (by decide)
    (by decide) (by decide) rfl).1
  exact h

/-- Claim C8 counterexample: command `f` with signature `us` and line
    `f 5xy`: after the unsigned token `5`, the byte immediately following
    is the non-whitespace `x`, and the code still consumes it — the string
    argument parses as `y`, not `xy` as the claim requires. -/
theorem C8_nonws_byte_consumed_cex :
    processCommand intOps ⟨[⟨"f".toList, "us".toList, []⟩], []⟩ ("f 5xy".toList)
      = (.cmdSuccess [.u 5, .s ['y']], ⟨[⟨"f".toList, "us".toList, []⟩], []⟩)
    ∧ (processCommand intOps ⟨[⟨"f".toList, "us".toList, []⟩], []⟩
        ("f 5xy".toList)).1
      ≠ .cmdSuccess [.u 5, .s ['x', 'y']] := by
  constructor <;> decide

/-- witness for C8 (amended): tail `12xy`, token `12` (2 bytes), the
    following non-whitespace byte `x` is consumed, leaving `y`. -/
theorem C8_integer_separator_amended_witness :
    parseLoop intOps ['u'] ("12xy".toList) [] false false
      = Except.ok ([Argument.u 12], ['y'], false, false) := by
  have h := (C8_integer_separator_amended Int intOps [] ("12xy".toList) []
    false 12 2).1 (by decide) (by decide)
  rw [h]
  rfl

/-! ## CommandLineHandler theorems (claim C2) -/

theorem bsStep_id (D : Type) (st : EditorState D) : (bsStep st).id = st.id := by
  rw [bsStep]
  split <;> rfl

theorem tabStep_id (D : Type) (st : EditorState D) : (tabStep st).id = st.id := by
  rw [tabStep]
  split
  · rfl
  · split <;> rfl

theorem insertChar_id (D : Type) (st : EditorState D) (c : Char) :
    (insertChar st c).id = st.id := by
  rw [insertChar]
  split <;> rfl

theorem setCommand_id (D : Type) (st : EditorState D) (a : List Char) :
    (setCommand st a).id = st.id := by
  rw [setCommand]
  split <;> rfl

theorem applyAction_id (D : Type) (st : EditorState D) (inv : Option Char) :
    (applyAction st inv).id = st.id := by
  cases inv with
  | none => rfl
  | some c =>
    rw [applyAction]
    dsimp only
    by_cases hA : (c == 'A') = true
    · rw [if_pos hA, setCommand_id]
    · rw [if_neg hA]
      by_cases hB : (c == 'B') = true
      · rw [if_pos hB, setCommand_id]
      · rw [if_neg hB]
        by_cases hD : (c == 'D') = true
        · rw [if_pos hD]; split <;> rfl
        · rw [if_neg hD]
          by_cases hC : (c == 'C') = true
          · rw [if_pos hC]; split <;> rfl
          · rw [if_neg hC]

theorem submitStep_id (D : Type) (ops : DoubleOps D) (st : EditorState D)
    (c : Char) (h : st.id.identified = true) :
    (submitStep ops st c).id = st.id := by
  rw [submitStep]
  split
  · simp only [h, Bool.not_true, Bool.false_eq_true, if_false]
  · rfl

theorem submitStep_inv (D : Type) (ops : DoubleOps D) (st : EditorState D)
    (c : Char) (hInv : st.id.identified = true → st.id.identifying = false) :
    (submitStep ops st c).id.identified = true →
      (submitStep ops st c).id.identifying = false := by
  rw [submitStep]
  split
  · by_cases hid : st.id.identified = true
    · simp only [hid, Bool.not_true, Bool.false_eq_true, if_false]
      exact fun _ => hInv hid
    · have hid2 : st.id.identified = false := by
        cases hh : st.id.identified
        · rfl
        · exact absurd hh hid
      simp only [hid2, Bool.not_false, if_true]
      intro hh
      exact absurd hh (by simp [hid2])
  · exact hInv

theorem editSubmit_id (D : Type) (ops : DoubleOps D) (st : EditorState D)
    (c : Char) (h1 : st.id.identified = true)
    (h2 : st.id.identifying = false) :
    (editSubmit ops st c).id = st.id := by
  rw [editSubmit]
  by_cases h8 : (c == '\x08') = true
  · rw [if_pos h8,
      submitStep_id D ops (bsStep st) c (by rw [bsStep_id]; exact h1),
      bsStep_id]
  · rw [if_neg h8]
    by_cases h9 : (c == '\x09') = true
    · rw [if_pos h9,
        submitStep_id D ops (tabStep st) c (by rw [tabStep_id]; exact h1),
        tabStep_id]
    · rw [if_neg h9, if_neg (by simp [h2])]
      simp only [h2, h1, Bool.false_eq_true, if_false, Bool.not_true,
        Bool.false_and, Bool.and_eq_true, false_and]
      rw [submitStep_id D ops (insertChar st c) c
        (by rw [insertChar_id]; exact h1), insertChar_id]

theorem editSubmit_inv (D : Type) (ops : DoubleOps D) (st : EditorState D)
    (c : Char)
    (hInv : st.id.identified = true → st.id.identifying = false) :
    (editSubmit ops st c).id.identified = true →
      (editSubmit ops st c).id.identifying = false := by
  rw [editSubmit]
  by_cases h8 : (c == '\x08') = true
  · rw [if_pos h8]
    exact submitStep_inv D ops (bsStep st) c (by rw [bsStep_id]; exact hInv)
  · rw [if_neg h8]
    by_cases h9 : (c == '\x09') = true
    · rw [if_pos h9]
      exact submitStep_inv D ops (tabStep st) c (by rw [tabStep_id]; exact hInv)
    · rw [if_neg h9]
      by_cases hcr : (st.id.identifying && (c == '\n')) = true
      · rw [if_pos hcr]
        intro _
        rfl
      · rw [if_neg hcr]
        by_cases hidg : st.id.identifying = true
        · simp only [hidg, if_true]
          refine submitStep_inv D ops _ c ?_
          rw [insertChar_id]
          intro _
          by_cases hn : (c == '\n') = true
          · exact absurd (show (st.id.identifying && (c == '\n')) = true by
              rw [hidg, hn]; rfl) hcr
          · simp only [show ((!(TerminalIdentifier.mk 2 true false).identified)
              && (c == '\n')) = false by rfl]
            rfl
        · have hidg2 : st.id.identifying = false := by
            cases hh : st.id.identifying
            · rfl
            · exact absurd hh hidg
          simp only [hidg2, Bool.false_eq_true, if_false]
          by_cases hlf : ((!st.id.identified) && (c == '\n')) = true
          · simp only [hlf, if_true]
            refine submitStep_inv D ops _ c ?_
            rw [insertChar_id]
            intro _
            rfl
          · simp only [hlf, Bool.false_eq_true, if_false]
            exact submitStep_inv D ops (insertChar st c) c
              (by rw [insertChar_id]; exact hInv)

theorem handleByte_id (D : Type) (ops : DoubleOps D) (st : EditorState D)
    (c : Char) (h1 : st.id.identified = true)
    (h2 : st.id.identifying = false) :
    (handleByte ops st c).id = st.id := by
  rw [handleByte]
  by_cases hesc : (c == '\x1b') = true
  · rw [if_pos hesc]
  · rw [if_neg hesc]
    by_cases hsm : st.sm.started = true
    · rw [if_pos hsm]
      dsimp only
      have hid : (applyAction {st with sm := (smAppend handlerBound st.sm c).1}
          (smAppend handlerBound st.sm c).2.2).id = st.id := by
        rw [applyAction_id]
      split
      · exact hid
      · rw [editSubmit_id D ops _ c (by rw [hid]; exact h1)
          (by rw [hid]; exact h2), hid]
    · rw [if_neg hsm]
      exact editSubmit_id D ops st c h1 h2

theorem handleByte_inv (D : Type) (ops : DoubleOps D) (st : EditorState D)
    (c : Char)
    (hInv : st.id.identified = true → st.id.identifying = false) :
    (handleByte ops st c).id.identified = true →
      (handleByte ops st c).id.identifying = false := by
  rw [handleByte]
  by_cases hesc : (c == '\x1b') = true
  · rw [if_pos hesc]
    exact hInv
  · rw [if_neg hesc]
    by_cases hsm : st.sm.started = true
    · rw [if_pos hsm]
      dsimp only
      split
      · rw [applyAction_id]
        exact hInv
      · exact editSubmit_inv D ops _ c (by rw [applyAction_id]; exact hInv)
    · rw [if_neg hsm]
      exact editSubmit_inv D ops st c hInv

/-- Claim C2: once the line-ending mode is identified (the
    `TerminalIdentifier` has `identified = true` with `type` one of 1 (LF),
    2 (CR), 3 (CRLF)) — and, as every step preserves (first conjunct), the
    one-byte `identifying` lookahead is then off — no subsequently processed
    byte ever changes the type or clears the flag: running any byte sequence
    through `handle_commandline` leaves the `TerminalIdentifier` exactly as
    it was (second conjunct). -/
theorem C2_line_ending_mode_fixed (D : Type) (ops : DoubleOps D) :
    (∀ (st : EditorState D) (c : Char),
      (st.id.identified = true → st.id.identifying = false) →
      ((handleByte ops st c).id.identified = true →
        (handleByte ops st c).id.identifying = false))
    ∧ (∀ (st : EditorState D) (bs : List Char),
      st.id.identified = true → st.id.identifying = false →
      (st.id.type = 1 ∨ st.id.type = 2 ∨ st.id.type = 3) →
      (runBytes ops st bs).id = st.id) := by
  constructor
  · exact fun st c => handleByte_inv D ops st c
  · intro st bs
    induction bs generalizing st with
    | nil => intro _ _ _; rfl
    | cons b bs ih =>
      intro h1 h2 h3
      have hstep := handleByte_id D ops st b h1 h2
      have hrest := ih (handleByte ops st b) (by rw [hstep]; exact h1)
        (by rw [hstep]; exact h2) (by rw [hstep]; exact h3)
      rw [runBytes, List.foldl_cons]
      rw [show List.foldl (handleByte ops) (handleByte ops st b) bs
        = runBytes ops (handleByte ops st b) bs from rfl]
      rw [hrest, hstep]

/-- witness for C2: a session fixed in LF mode processes `x` then a
    terminator byte (which submits a line) without any change to the
    identifier. -/
theorem C2_line_ending_mode_fixed_witness :
    (runBytes intOps
      ⟨[], 0, ⟨1, true, false⟩, ⟨false, []⟩, mkRoundArray 3 true, ⟨[], []⟩⟩
      ['x', '\n']).id = ⟨1, true, false⟩ :=
  (C2_line_ending_mode_fixed Int intOps).2 _ ['x', '\n'] rfl rfl (Or.inl rfl)
